import Mathlib

/-!
Verification development for the intent-tree builder (src/intent_tree.py).

The Python program converts a batch of dialogs (lists of bot/user utterances)
into one merged tree keyed by classification labels, and exports the tree to
nested records.  Below is a shallow embedding of that program:

* `DialogPhrase`, `Dialog`       — the input data model (lines 52-58);
* `requestIntentRemote`          — the body of `requestIntent` (lines 35-49),
  parameterised by an abstract HTTP response;
* `requestIntentCached`          — the `asyncCached` wrapper (lines 14-26),
  sequential view, with an explicit cache and an issued-call counter;
* `IntentTreeNode` and its methods (lines 66-83), with Python's
  insertion-ordered dict modelled as an association list and Python's set of
  phrases modelled as a duplicate-free list in insertion order;
* `addDialogFrom`, `addDialogs`, `buildRun`, `buildIntentTree`
  — `IntentTreeBuilder.addDialog` and `buildIntentTree` (lines 93-136),
  with classification given by a pure oracle `f : String → Except _ Label`;
* `intentSubtree`, `intentTree`  — the exporter `_intentSubtree` (112-125);
* the `Conc` namespace — a small-step interleaving model of concurrent
  callers of the cached classifier, to settle the concurrency claims.
-/

namespace IntentTree

/-- One utterance of a dialog (`DialogPhrase`, intent_tree.py lines 52-55;
the optional `intent` input field is never read by the builder). -/
structure DialogPhrase where
  text : String
  is_bot : Bool
deriving Repr, DecidableEq

/-- Source: `Dialog = List[DialogPhrase]` (line 58). -/
abbrev Dialog := List DialogPhrase

/-- A resolved classification label.  `requestIntent` returns
`data.get('intent', ...).get('name')`, a string or Python `None`;
`None` is modelled as `none`. -/
abbrev Label := Option String

/-- The failure modes of one classification call: `RequestError` raised on a
non-200 status (lines 41-44), a transport error raised by the HTTP client, or
a parse error raised by `response.json()` (line 46). -/
inductive ClassifyErr where
  | requestError (status : Nat) (phrase : String)
  | transport (cause : String)
  | malformed (cause : String)
deriving Repr, DecidableEq

/-- The `intent` object of the service's JSON payload; `name` may be absent. -/
structure IntentField where
  name : Option String
deriving Repr, DecidableEq

/-- The parsed JSON payload: the `intent` key may be absent. -/
structure ParsedData where
  intent : Option IntentField
deriving Repr, DecidableEq

/-- The outcome of the HTTP exchange `session.get(url)` seen by
`requestIntent`: either a response with a status code and a body (whose JSON
parse may fail with a cause), or a transport error raised before any
response arrives. -/
inductive HttpResponse where
  | response (status : Nat) (body : Except String ParsedData)
  | transportError (cause : String)
deriving Repr

/-- Extraction `data.get('intent', \x7b\x7d).get('name')` (line 47). -/
def getIntentName (data : ParsedData) : Option String :=
  match data.intent with
  | some f => f.name
  | none => none

/-- The body of `requestIntent` (lines 35-49), with the network abstracted
into the `HttpResponse` argument: a transport error propagates as raised, a
non-200 status raises `RequestError` whose message carries the status code
and the request URL built from the phrase, and a 200 response yields the
(possibly absent) `intent.name` after a JSON parse that may itself fail. -/
def requestIntentRemote (phrase : String) (resp : HttpResponse) :
    Except ClassifyErr Label :=
  match resp with
  | .transportError c => .error (.transport c)
  | .response status body =>
    if status ≠ 200 then .error (.requestError status phrase)
    else
      match body with
      | .error c => .error (.malformed c)
      | .ok data => .ok (getIntentName data)

/-- The memo dictionary of `asyncCached` specialised to its only use,
`requestIntent`: one positional string argument, no keyword arguments. -/
abbrev Cache := List (String × Label)

/-- Lookup in a Python dict modelled as an insertion-ordered association
list (`cache_key in cache` on line 18, `self.childrenMap.get(intent)` on
line 73). -/
def dictLookup {κ ν : Type} [DecidableEq κ] (k : κ) : List (κ × ν) → Option ν
  | [] => none
  | (k', v) :: rest => if k' = k then some v else dictLookup k rest

/-- Python dict assignment (`cache[cache_key] = result` on line 22,
`self.childrenMap[node.intent] = node` on line 76): replace in place when the
key is present, append otherwise. -/
def dictSet {κ ν : Type} [DecidableEq κ] (k : κ) (v : ν) :
    List (κ × ν) → List (κ × ν)
  | [] => [(k, v)]
  | (k', v') :: rest =>
    if k' = k then (k, v) :: rest else (k', v') :: dictSet k v rest

/-- The `asyncCached` wrapper `cached_f` (lines 16-23), sequential view.  `f` is the
wrapped remote call.  Returns the result, the cache afterwards, and how many
remote calls were issued (0 on a hit, 1 on a miss).  On failure the raised
error propagates before line 22 runs, so nothing is cached. -/
def requestIntentCached (f : String → Except ClassifyErr Label)
    (cache : Cache) (text : String) :
    Except ClassifyErr Label × Cache × Nat :=
  match dictLookup text cache with
  | some r => (.ok r, cache, 0)
  | none =>
    match f text with
    | .ok r => (.ok r, dictSet text r cache, 1)
    | .error e => (.error e, cache, 1)

/-- A tree node (`IntentTreeNode`, lines 66-83).  `childrenMap` is Python's
insertion-ordered dict as an association list; `phrases` is Python's set as a
duplicate-free list in insertion order (the exporter sorts it anyway). -/
inductive IntentTreeNode : Type where
  | mk (intent : Label) (phrases : List String)
       (childrenMap : List (Label × IntentTreeNode))
deriving Repr

/-- Field `self.intent`. -/
def IntentTreeNode.intent : IntentTreeNode → Label
  | .mk i _ _ => i

/-- Field `self.phrases`. -/
def IntentTreeNode.phrases : IntentTreeNode → List String
  | .mk _ p _ => p

/-- Field `self.childrenMap`. -/
def IntentTreeNode.childrenMap : IntentTreeNode → List (Label × IntentTreeNode)
  | .mk _ _ c => c

/-- Method `lookupChild` (lines 72-73): `self.childrenMap.get(intent)`. -/
def IntentTreeNode.lookupChild (n : IntentTreeNode) (intent : Label) :
    Option IntentTreeNode :=
  dictLookup intent n.childrenMap

/-- Method `addChild` (lines 75-76): `self.childrenMap[node.intent] = node`. -/
def IntentTreeNode.addChild (self node : IntentTreeNode) : IntentTreeNode :=
  .mk self.intent self.phrases (dictSet node.intent node self.childrenMap)

/-- Method `registerPhrase` (lines 78-79): `self.phrases.add(text)`. -/
def IntentTreeNode.registerPhrase (self : IntentTreeNode) (text : String) :
    IntentTreeNode :=
  if text ∈ self.phrases then self
  else .mk self.intent (self.phrases ++ [text]) self.childrenMap

/-- Method `children` (lines 81-83): the child nodes in dict order. -/
def IntentTreeNode.children (n : IntentTreeNode) : List IntentTreeNode :=
  n.childrenMap.map (fun p => p.2)

/-- Constant `IntentTreeBuilder.ROOT_INTENT` (line 87). -/
def ROOT_INTENT : String := "ROOT_INTENT"

/-- Constant `IntentTreeBuilder.BOT_INTENT` (line 88). -/
def BOT_INTENT : String := "DETERMINISTIC_BOT_INTENT"

/-- The fresh builder's root, `IntentTreeNode(self.ROOT_INTENT)` (line 91). -/
def rootNode : IntentTreeNode := .mk (some ROOT_INTENT) [] []

/-- The mutable state shared by all traversals of one run: the classifier
cache and a count of remote calls issued so far. -/
structure BuildState where
  cache : Cache
  calls : Nat
deriving Repr, DecidableEq

/-- Resolving one phrase's intent inside `addDialog` (lines 96-99): a fixed
marker for bot turns, `await requestIntent(phrase.text)` otherwise. -/
def resolvePhrase (f : String → Except ClassifyErr Label) (st : BuildState)
    (ph : DialogPhrase) : Except ClassifyErr (Label × BuildState) :=
  if ph.is_bot then .ok (some BOT_INTENT, st)
  else
    match requestIntentCached f st.cache ph.text with
    | (.ok r, cache', k) => .ok (r, ⟨cache', st.calls + k⟩)
    | (.error e, _, _) => .error e

/-- Lines 101-104 of `addDialog`: the child of `node` keyed by `intent`,
looked up if present, freshly created otherwise. -/
def childFor (node : IntentTreeNode) (intent : Label) : IntentTreeNode :=
  match node.lookupChild intent with
  | some c => c
  | none => IntentTreeNode.mk intent [] []

/-- The `addDialog` cursor loop (lines 93-107), as recursion on the remaining
phrases: resolve the intent, look up or create the child keyed by it,
register the phrase on the child, descend, and reinstall the updated child
under its key (Python mutates the child in place; the reinstall lands on the
same dict slot, replacing in place or appending exactly as line 76 does). -/
def addDialogFrom (f : String → Except ClassifyErr Label) :
    IntentTreeNode → List DialogPhrase → BuildState →
    Except ClassifyErr (IntentTreeNode × BuildState)
  | node, [], st => .ok (node, st)
  | node, ph :: rest, st =>
    match resolvePhrase f st ph with
    | .error e => .error e
    | .ok (intent, st') =>
      match addDialogFrom f ((childFor node intent).registerPhrase ph.text)
          rest st' with
      | .error e => .error e
      | .ok (child', st'') => .ok (node.addChild child', st'')

/-- The traversals of `asyncio.gather` (lines 130-135) in one sequential
order; any raised classification error aborts the whole run. -/
def addDialogs (f : String → Except ClassifyErr Label) :
    IntentTreeNode → List Dialog → BuildState →
    Except ClassifyErr (IntentTreeNode × BuildState)
  | node, [], st => .ok (node, st)
  | node, d :: ds, st =>
    match addDialogFrom f node d st with
    | .error e => .error e
    | .ok (node', st') => addDialogs f node' ds st'

/-- A whole run of `buildIntentTree` up to (not including) the export: fresh
builder, empty cache, no calls issued yet. -/
def buildRun (f : String → Except ClassifyErr Label) (dialogs : List Dialog) :
    Except ClassifyErr (IntentTreeNode × BuildState) :=
  addDialogs f rootNode dialogs ⟨[], 0⟩

/-- One exported record (lines 117-123): `is_bot`, sorted `phrases`, nested
`replies`, and an `intent` key present only when `is_bot` is false. -/
inductive NodeData : Type where
  | mk (is_bot : Bool) (phrases : List String) (replies : List NodeData)
       (intent : Option Label)
deriving Repr

/-- The record's `is_bot` value. -/
def NodeData.is_bot : NodeData → Bool
  | .mk b _ _ _ => b

/-- The record's `phrases` value. -/
def NodeData.phrases : NodeData → List String
  | .mk _ p _ _ => p

/-- The record's `replies` value. -/
def NodeData.replies : NodeData → List NodeData
  | .mk _ _ r _ => r

/-- The record's `intent` key: `none` when the key is absent. -/
def NodeData.intentKey : NodeData → Option Label
  | .mk _ _ _ i => i

/-- Python's `<` on strings restricted to their code-point sequences:
lexicographic comparison of the character lists.  (Python compares strings
lexicographically by Unicode code point, exactly as Lean's `String` order
does; this function is a computable mirror of that order.) -/
def charListLtb : List Char → List Char → Bool
  | [], [] => false
  | [], _ :: _ => true
  | _ :: _, [] => false
  | a :: as, b :: bs =>
    if a < b then true
    else if b < a then false
    else charListLtb as bs

/-- Python's `<` on strings. -/
def strLtb (a b : String) : Bool :=
  charListLtb a.data b.data

/-- Python's `<=` on strings. -/
def strLeb (a b : String) : Bool :=
  !(strLtb b a)

/-- Insert a string into an already ascending list, before the first entry
it is `<=` to. -/
def insertSortedStr (x : String) : List String → List String
  | [] => [x]
  | y :: ys => if strLeb x y then x :: y :: ys else y :: insertSortedStr x ys

/-- Python's `sorted` on the phrase set (line 119), ascending lexicographic
(insertion sort; `sorted` is stable, and on the duplicate-free phrase sets it
is applied to, any correct ascending sort produces the same list). -/
def sortedStrings : List String → List String
  | [] => []
  | x :: xs => insertSortedStr x (sortedStrings xs)

mutual

/-- Method `_intentSubtree` (lines 112-125): one record per child, in the dict's
iteration order, which is insertion order. -/
def intentSubtree : IntentTreeNode → List NodeData
  | .mk _ _ children => exportChildren children

/-- The `for child in node.children()` loop of `_intentSubtree`. -/
def exportChildren : List (Label × IntentTreeNode) → List NodeData
  | [] => []
  | (_, child) :: rest => exportNodeData child :: exportChildren rest

/-- The `nodeData` dict built for one child (lines 116-123). -/
def exportNodeData : IntentTreeNode → NodeData
  | .mk intent phrases children =>
    NodeData.mk (decide (intent = some BOT_INTENT)) (sortedStrings phrases)
      (exportChildren children)
      (if intent = some BOT_INTENT then none else some intent)

end

/-- Method `intentTree` (lines 109-110). -/
def intentTree (root : IntentTreeNode) : List NodeData :=
  intentSubtree root

/-- Function `buildIntentTree` (lines 128-136): run every dialog's traversal against
the one shared tree and cache, then export; a raised classification error
propagates out of `asyncio.gather` and no tree is returned. -/
def buildIntentTree (f : String → Except ClassifyErr Label)
    (dialogs : List Dialog) : Except ClassifyErr (List NodeData) :=
  match buildRun f dialogs with
  | .error e => .error e
  | .ok (root, _) => .ok (intentTree root)

mutual

/-- Structural well-formedness of a tree, as maintained by the builder: the
node's phrase list is duplicate-free (it models a Python set), the children
dict's keys are pairwise distinct, and every entry maps a key equal to its
child's own intent. -/
def treeWF : IntentTreeNode → Bool
  | .mk _ phrases children =>
    decide phrases.Nodup && decide (children.map Prod.fst).Nodup &&
      childrenWF children

/-- Predicate `treeWF` over a children dict: key/intent agreement plus recursive
well-formedness of every child. -/
def childrenWF : List (Label × IntentTreeNode) → Bool
  | [] => true
  | (k, c) :: rest => decide (k = c.intent) && treeWF c && childrenWF rest

end

/-- Follow a sequence of labels downward from a node through the children
dicts; `none` when some step has no child with that label.  Since children
dicts are keyed maps, this is the unique path for those labels. -/
def followPath : IntentTreeNode → List Label → Option IntentTreeNode
  | n, [] => some n
  | n, k :: ks =>
    match n.lookupChild k with
    | some c => followPath c ks
    | none => none

/-- The label `addDialog` descends with for one phrase, when classification
succeeds: the bot marker for bot turns, the classifier's answer otherwise
(lines 96-99). -/
def labelOfPhrase (f : String → Except ClassifyErr Label)
    (ph : DialogPhrase) : Label :=
  if ph.is_bot then some BOT_INTENT
  else
    match f ph.text with
    | .ok r => r
    | .error _ => none

/-- The label sequence a dialog traverses under classifier `f` (meaningful
when every user turn of the dialog classifies successfully). -/
def dialogLabels (f : String → Except ClassifyErr Label) (d : Dialog) :
    List Label :=
  d.map (labelOfPhrase f)

/-- The cache never disagrees with the classifier: every stored entry is a
result the classifier actually returned.  Holds of the empty cache and is
maintained by every resolution (line 22 stores exactly `await f(...)`). -/
def CacheOk (f : String → Except ClassifyErr Label) (cache : Cache) : Prop :=
  ∀ t r, dictLookup t cache = some r → f t = .ok r

/-- Ascending lexicographic with no duplicate entries, as one computable
check: each entry strictly below the next. -/
def strictlySorted : List String → Bool
  | [] => true
  | [_] => true
  | a :: b :: rest => strLtb a b && strictlySorted (b :: rest)

mutual

/-- Every record of an exported forest, recursively, has its phrase list in
strictly ascending order (so sorted ascending and duplicate-free). -/
def exportPhrasesSorted : List NodeData → Bool
  | [] => true
  | r :: rest => recordPhrasesSorted r && exportPhrasesSorted rest

/-- Check `exportPhrasesSorted` for one record and its nested replies. -/
def recordPhrasesSorted : NodeData → Bool
  | .mk _ phrases replies _ => strictlySorted phrases && exportPhrasesSorted replies

end

mutual

/-- Every node of the tree, recursively, has pairwise-distinct child labels
(the keys of its children dict). -/
def distinctChildLabels : IntentTreeNode → Bool
  | .mk _ _ children =>
    decide (children.map Prod.fst).Nodup && distinctChildLabelsAll children

/-- Check `distinctChildLabels` for every child of a children dict. -/
def distinctChildLabelsAll : List (Label × IntentTreeNode) → Bool
  | [] => true
  | (_, c) :: rest => distinctChildLabels c && distinctChildLabelsAll rest

end

namespace Conc

/-!
A small-step interleaving model of `asyncCached`'s `cached_f` under asyncio:
several tasks concurrently resolve a text each.  A task's execution between
suspension points is atomic.  `cached_f` has exactly one suspension point,
the `await f(...)` on line 21, so a task takes two atomic steps:

* from `start`: check the cache (line 18).  On a hit the task completes at
  once with the cached value (line 19).  On a miss it issues the remote call
  and suspends inside `await f(...)` (line 21) — phase `fetching`;
* from `fetching`: the awaited call returns.  On success the result is
  stored in the cache (line 22) and returned; a raised error propagates
  without caching.

A scheduler is a list of task indices; each entry runs one atomic step of
that task.
-/

/-- Where one resolving task stands between atomic steps. -/
inductive TaskPhase where
  | start
  | fetching
  | done (result : Except ClassifyErr Label)
deriving Repr

/-- One task resolving one text through the shared cache. -/
structure ResolveTask where
  text : String
  phase : TaskPhase
deriving Repr

/-- The shared state: the memo cache, every task, and how many remote calls
have been issued so far. -/
structure ConcState where
  cache : Cache
  tasks : List ResolveTask
  calls : Nat
deriving Repr

/-- Run one atomic step of task `i` (out of range or completed: no change). -/
def step (f : String → Except ClassifyErr Label) (s : ConcState) (i : Nat) :
    ConcState :=
  match s.tasks.get? i with
  | none => s
  | some t =>
    match t.phase with
    | .done _ => s
    | .start =>
      match dictLookup t.text s.cache with
      | some r =>
        { s with tasks := s.tasks.set i ⟨t.text, .done (.ok r)⟩ }
      | none =>
        { s with tasks := s.tasks.set i ⟨t.text, .fetching⟩,
                 calls := s.calls + 1 }
    | .fetching =>
      match f t.text with
      | .ok r =>
        { s with tasks := s.tasks.set i ⟨t.text, .done (.ok r)⟩,
                 cache := dictSet t.text r s.cache }
      | .error e =>
        { s with tasks := s.tasks.set i ⟨t.text, .done (.error e)⟩ }

/-- Run a whole schedule of atomic steps. -/
def run (f : String → Except ClassifyErr Label) (s : ConcState)
    (sched : List Nat) : ConcState :=
  sched.foldl (step f) s

/-- The initial state for a set of concurrently launched resolutions of the
given texts: empty cache, every task at its first instruction. -/
def init (texts : List String) : ConcState :=
  ⟨[], texts.map (fun t => ⟨t, .start⟩), 0⟩

end Conc

/-! ### Basic facts about the Python-dict model -/

theorem dictLookup_set_self {κ ν : Type} [DecidableEq κ] (k : κ) (v : ν) :
    ∀ l : List (κ × ν), dictLookup k (dictSet k v l) = some v
  | [] => by simp [dictSet, dictLookup]
  | (k', v') :: rest => by
    by_cases h : k' = k
    · simp [dictSet, dictLookup, h]
    · simp [dictSet, dictLookup, h, dictLookup_set_self k v rest]

theorem dictLookup_set_ne {κ ν : Type} [DecidableEq κ] {k k2 : κ} (v : ν)
    (h : k2 ≠ k) :
    ∀ l : List (κ × ν), dictLookup k2 (dictSet k v l) = dictLookup k2 l
  | [] => by simp [dictSet, dictLookup, Ne.symm h]
  | (k', v') :: rest => by
    by_cases hk : k' = k
    · subst hk
      simp [dictSet, dictLookup, Ne.symm h]
    · simp [dictSet, dictLookup, hk, dictLookup_set_ne v h rest]

theorem dictLookup_eq_none {κ ν : Type} [DecidableEq κ] (k : κ) :
    ∀ l : List (κ × ν), dictLookup k l = none ↔ k ∉ l.map Prod.fst
  | [] => by simp [dictLookup]
  | (k', v') :: rest => by
    by_cases h : k' = k
    · simp [dictLookup, h]
    · simp [dictLookup, h, dictLookup_eq_none k rest, Ne.symm h]

theorem dictSet_keys_of_mem {κ ν : Type} [DecidableEq κ] {k : κ} (v : ν) :
    ∀ {l : List (κ × ν)}, k ∈ l.map Prod.fst →
      (dictSet k v l).map Prod.fst = l.map Prod.fst
  | [], h => by simp at h
  | (k', v') :: rest, h => by
    by_cases hk : k' = k
    · simp [dictSet, hk]
    · have : k ∈ rest.map Prod.fst := by
        simp at h
        rcases h with h | h
        · exact absurd h.symm hk
        · simpa using h
      simp [dictSet, hk, dictSet_keys_of_mem v this]

theorem dictSet_keys_of_not_mem {κ ν : Type} [DecidableEq κ] {k : κ} (v : ν) :
    ∀ {l : List (κ × ν)}, k ∉ l.map Prod.fst →
      (dictSet k v l).map Prod.fst = l.map Prod.fst ++ [k]
  | [], _ => by simp [dictSet]
  | (k', v') :: rest, h => by
    have hk : k' ≠ k := by
      intro he
      exact h (by simp [he])
    have hrest : k ∉ rest.map Prod.fst := by
      intro hm
      exact h (by simp [hm])
    simp [dictSet, hk, dictSet_keys_of_not_mem v hrest]

theorem nodup_keys_dictSet {κ ν : Type} [DecidableEq κ] (k : κ) (v : ν)
    (l : List (κ × ν)) (h : (l.map Prod.fst).Nodup) :
    ((dictSet k v l).map Prod.fst).Nodup := by
  by_cases hm : k ∈ l.map Prod.fst
  · rw [dictSet_keys_of_mem v hm]
    exact h
  · rw [dictSet_keys_of_not_mem v hm]
    exact List.Nodup.append h (List.nodup_singleton k)
      ((List.disjoint_singleton).mpr hm)

/-! ### Facts about the node methods -/

theorem registerPhrase_intent (n : IntentTreeNode) (t : String) :
    (n.registerPhrase t).intent = n.intent := by
  cases n with
  | mk i p c =>
    by_cases h : t ∈ p
    · simp [IntentTreeNode.registerPhrase, IntentTreeNode.phrases, h]
    · simp [IntentTreeNode.registerPhrase, IntentTreeNode.phrases, h,
        IntentTreeNode.intent]

theorem registerPhrase_childrenMap (n : IntentTreeNode) (t : String) :
    (n.registerPhrase t).childrenMap = n.childrenMap := by
  cases n with
  | mk i p c =>
    by_cases h : t ∈ p
    · simp [IntentTreeNode.registerPhrase, IntentTreeNode.phrases, h]
    · simp [IntentTreeNode.registerPhrase, IntentTreeNode.phrases, h,
        IntentTreeNode.childrenMap]

theorem registerPhrase_mem (n : IntentTreeNode) (t : String) :
    t ∈ (n.registerPhrase t).phrases := by
  cases n with
  | mk i p c =>
    by_cases h : t ∈ p
    · simp [IntentTreeNode.registerPhrase, IntentTreeNode.phrases, h]
    · simp [IntentTreeNode.registerPhrase, IntentTreeNode.phrases, h]

theorem registerPhrase_mem_mono {n : IntentTreeNode} {s : String} (t : String)
    (h : s ∈ n.phrases) : s ∈ (n.registerPhrase t).phrases := by
  cases n with
  | mk i p c =>
    by_cases ht : t ∈ p
    · simpa [IntentTreeNode.registerPhrase, IntentTreeNode.phrases, ht] using h
    · simp only [IntentTreeNode.phrases] at h
      simp [IntentTreeNode.registerPhrase, IntentTreeNode.phrases, ht, h]

theorem registerPhrase_nodup {n : IntentTreeNode} (t : String)
    (h : n.phrases.Nodup) : (n.registerPhrase t).phrases.Nodup := by
  cases n with
  | mk i p c =>
    simp only [IntentTreeNode.phrases] at h
    by_cases ht : t ∈ p
    · simpa [IntentTreeNode.registerPhrase, IntentTreeNode.phrases, ht] using h
    · simp only [IntentTreeNode.registerPhrase, IntentTreeNode.phrases, ht,
        if_false]
      exact List.Nodup.append h (List.nodup_singleton t)
        ((List.disjoint_singleton).mpr ht)

theorem addChild_intent (n c : IntentTreeNode) :
    (n.addChild c).intent = n.intent := by
  simp [IntentTreeNode.addChild, IntentTreeNode.intent]

theorem addChild_phrases (n c : IntentTreeNode) :
    (n.addChild c).phrases = n.phrases := by
  simp [IntentTreeNode.addChild, IntentTreeNode.phrases]

theorem addChild_childrenMap (n c : IntentTreeNode) :
    (n.addChild c).childrenMap = dictSet c.intent c n.childrenMap := by
  simp [IntentTreeNode.addChild, IntentTreeNode.childrenMap]

theorem lookupChild_addChild_self (n c : IntentTreeNode) :
    (n.addChild c).lookupChild c.intent = some c := by
  simp [IntentTreeNode.lookupChild, addChild_childrenMap,
    dictLookup_set_self]

theorem lookupChild_addChild_ne (n c : IntentTreeNode) {k : Label}
    (h : k ≠ c.intent) :
    (n.addChild c).lookupChild k = n.lookupChild k := by
  simp [IntentTreeNode.lookupChild, addChild_childrenMap,
    dictLookup_set_ne c h]

/-! ### The computable string order agrees with the mathematical one -/

theorem charListLtb_lex : ∀ as bs : List Char,
    charListLtb as bs = true ↔ List.Lex (fun a b : Char => a < b) as bs
  | [], [] => by
    simp [charListLtb]
  | [], b :: bs => by
    simp only [charListLtb, true_iff]
    exact List.Lex.nil
  | a :: as, [] => by
    simp [charListLtb]
  | a :: as, b :: bs => by
    rcases lt_trichotomy a b with hab | heq | hba
    · simp only [charListLtb, hab, if_true, true_iff]
      exact List.Lex.rel hab
    · subst heq
      simp only [charListLtb, lt_irrefl, if_false]
      rw [charListLtb_lex as bs]
      exact List.Lex.cons_iff.symm
    · have hab : ¬a < b := not_lt_of_gt hba
      simp only [charListLtb, hab, if_false, hba, if_true, Bool.false_eq_true,
        false_iff]
      intro h
      cases h with
      | cons h => exact lt_irrefl a hba
      | rel h => exact hab h

theorem strLtb_iff (a b : String) : strLtb a b = true ↔ a < b := by
  rw [String.lt_iff_toList_lt]
  exact charListLtb_lex a.data b.data

theorem strLtb_eq_false_iff (a b : String) : strLtb a b = false ↔ ¬a < b := by
  rw [← strLtb_iff]
  cases h : strLtb a b <;> simp

theorem strLeb_iff (a b : String) : strLeb a b = true ↔ a ≤ b := by
  show (!strLtb b a) = true ↔ a ≤ b
  rw [Bool.not_eq_true', strLtb_eq_false_iff, not_lt]

/-! ### `sortedStrings` sorts ascending and preserves the entry set -/

theorem insertSortedStr_perm (x : String) :
    ∀ l : List String, List.Perm (insertSortedStr x l) (x :: l)
  | [] => List.Perm.refl _
  | y :: ys => by
    cases h : strLeb x y with
    | true => simp [insertSortedStr, h]
    | false =>
      simp only [insertSortedStr, h, Bool.false_eq_true, if_false]
      exact ((insertSortedStr_perm x ys).cons y).trans (List.Perm.swap x y ys)

theorem sortedStrings_perm :
    ∀ l : List String, List.Perm (sortedStrings l) l
  | [] => List.Perm.refl _
  | x :: xs => by
    show List.Perm (insertSortedStr x (sortedStrings xs)) (x :: xs)
    exact (insertSortedStr_perm x (sortedStrings xs)).trans
      ((sortedStrings_perm xs).cons x)

theorem sorted_insertSortedStr (x : String) :
    ∀ l : List String, List.Sorted (fun a b : String => a ≤ b) l →
      List.Sorted (fun a b : String => a ≤ b) (insertSortedStr x l)
  | [], _ => by simp [insertSortedStr]
  | y :: ys, h => by
    rw [List.sorted_cons] at h
    obtain ⟨hy, hys⟩ := h
    cases hxy : strLeb x y with
    | true =>
      have hxy' : x ≤ y := (strLeb_iff x y).mp hxy
      simp only [insertSortedStr, hxy, if_true]
      rw [List.sorted_cons]
      refine ⟨?_, ?_⟩
      · intro b hb
        rcases List.mem_cons.mp hb with hb | hb
        · exact hb ▸ hxy'
        · exact le_trans hxy' (hy b hb)
      · rw [List.sorted_cons]
        exact ⟨hy, hys⟩
    | false =>
      have hyx : y ≤ x := by
        have hnot : ¬x ≤ y := fun hle => by
          have hc := (strLeb_iff x y).mpr hle
          rw [hxy] at hc
          cases hc
        exact le_of_not_le hnot
      simp only [insertSortedStr, hxy, Bool.false_eq_true, if_false]
      rw [List.sorted_cons]
      refine ⟨?_, sorted_insertSortedStr x ys hys⟩
      intro b hb
      have hmem := (insertSortedStr_perm x ys).mem_iff.mp hb
      rcases List.mem_cons.mp hmem with hb' | hb'
      · exact hb' ▸ hyx
      · exact hy b hb'

theorem sorted_sortedStrings :
    ∀ l : List String, List.Sorted (fun a b : String => a ≤ b) (sortedStrings l)
  | [] => by simp [sortedStrings]
  | x :: xs => sorted_insertSortedStr x (sortedStrings xs) (sorted_sortedStrings xs)

theorem strictlySorted_of_sorted_nodup :
    ∀ l : List String, List.Sorted (fun a b : String => a ≤ b) l → l.Nodup →
      strictlySorted l = true
  | [], _, _ => rfl
  | [_], _, _ => rfl
  | a :: b :: rest, hs, hn => by
    rw [List.sorted_cons] at hs
    obtain ⟨ha, hs'⟩ := hs
    rw [List.nodup_cons] at hn
    obtain ⟨hamem, hn'⟩ := hn
    have hab : a < b := by
      refine lt_of_le_of_ne (ha b (by simp)) ?_
      intro he
      exact hamem (he ▸ List.mem_cons_self b rest)
    simp only [strictlySorted, Bool.and_eq_true]
    exact ⟨(strLtb_iff a b).mpr hab, strictlySorted_of_sorted_nodup (b :: rest) hs' hn'⟩

theorem strictlySorted_sortedStrings {l : List String} (h : l.Nodup) :
    strictlySorted (sortedStrings l) = true :=
  strictlySorted_of_sorted_nodup (sortedStrings l) (sorted_sortedStrings l)
    ((sortedStrings_perm l).nodup_iff.mpr h)

/-! ### The builder maintains well-formedness -/

theorem childrenWF_lookup :
    ∀ {l : List (Label × IntentTreeNode)} {k : Label} {c : IntentTreeNode},
      childrenWF l = true → dictLookup k l = some c →
      treeWF c = true ∧ k = c.intent := by
  intro l
  induction l with
  | nil =>
    intro k c _ hl
    simp [dictLookup] at hl
  | cons kv rest ih =>
    intro k c hwf hl
    obtain ⟨k', c'⟩ := kv
    simp only [childrenWF, Bool.and_eq_true, decide_eq_true_eq] at hwf
    obtain ⟨⟨hk', hc'⟩, hrest⟩ := hwf
    by_cases hkk : k' = k
    · subst hkk
      simp only [dictLookup, if_pos rfl] at hl
      cases hl
      exact ⟨hc', hk'⟩
    · simp only [dictLookup, if_neg hkk] at hl
      exact ih hrest hl

theorem childrenWF_set :
    ∀ {l : List (Label × IntentTreeNode)} {c : IntentTreeNode},
      childrenWF l = true → treeWF c = true →
      childrenWF (dictSet c.intent c l) = true := by
  intro l
  induction l with
  | nil =>
    intro c _ hc
    simp [dictSet, childrenWF, hc]
  | cons kv rest ih =>
    intro c hwf hc
    obtain ⟨k', c'⟩ := kv
    simp only [childrenWF, Bool.and_eq_true, decide_eq_true_eq] at hwf
    obtain ⟨⟨hk', hc'⟩, hrest⟩ := hwf
    by_cases hkk : k' = c.intent
    · simp [dictSet, hkk, childrenWF, hc, hrest]
    · have hkk2 : ¬c'.intent = c.intent := by
        rw [← hk']
        exact hkk
      simp [dictSet, hkk, hkk2, childrenWF, hk', hc', ih hrest hc]

theorem treeWF_parts {i : Label} {p : List String}
    {ch : List (Label × IntentTreeNode)} (h : treeWF (.mk i p ch) = true) :
    p.Nodup ∧ (ch.map Prod.fst).Nodup ∧ childrenWF ch = true := by
  simp only [treeWF, Bool.and_eq_true, decide_eq_true_eq] at h
  exact ⟨h.1.1, h.1.2, h.2⟩

theorem treeWF_of_parts {i : Label} {p : List String}
    {ch : List (Label × IntentTreeNode)} (hp : p.Nodup)
    (hk : (ch.map Prod.fst).Nodup) (hc : childrenWF ch = true) :
    treeWF (.mk i p ch) = true := by
  simp only [treeWF, Bool.and_eq_true, decide_eq_true_eq]
  exact ⟨⟨hp, hk⟩, hc⟩

theorem treeWF_leaf (i : Label) : treeWF (.mk i [] []) = true := rfl

theorem treeWF_rootNode : treeWF rootNode = true := rfl

theorem treeWF_registerPhrase {n : IntentTreeNode} (t : String)
    (h : treeWF n = true) : treeWF (n.registerPhrase t) = true := by
  cases n with
  | mk i p ch =>
    obtain ⟨hp, hk, hc⟩ := treeWF_parts h
    by_cases ht : t ∈ p
    · have he : (IntentTreeNode.mk i p ch).registerPhrase t = .mk i p ch := by
        simp [IntentTreeNode.registerPhrase, IntentTreeNode.phrases, ht]
      rw [he]
      exact h
    · have he : (IntentTreeNode.mk i p ch).registerPhrase t =
          .mk i (p ++ [t]) ch := by
        simp [IntentTreeNode.registerPhrase, IntentTreeNode.phrases,
          IntentTreeNode.intent, IntentTreeNode.childrenMap, ht]
      rw [he]
      refine treeWF_of_parts ?_ hk hc
      exact List.Nodup.append hp (List.nodup_singleton t)
        ((List.disjoint_singleton).mpr ht)

theorem treeWF_addChild {n c : IntentTreeNode} (hn : treeWF n = true)
    (hc : treeWF c = true) : treeWF (n.addChild c) = true := by
  cases n with
  | mk i p ch =>
    obtain ⟨hp, hk, hch⟩ := treeWF_parts hn
    have he : (IntentTreeNode.mk i p ch).addChild c =
        .mk i p (dictSet c.intent c ch) := by
      simp [IntentTreeNode.addChild, IntentTreeNode.intent,
        IntentTreeNode.phrases, IntentTreeNode.childrenMap]
    rw [he]
    exact treeWF_of_parts hp (nodup_keys_dictSet c.intent c ch hk)
      (childrenWF_set hch hc)

theorem treeWF_lookupChild {n c : IntentTreeNode} {k : Label}
    (hn : treeWF n = true) (hl : n.lookupChild k = some c) :
    treeWF c = true ∧ k = c.intent := by
  cases n with
  | mk i p ch =>
    obtain ⟨_, _, hch⟩ := treeWF_parts hn
    exact childrenWF_lookup hch hl

theorem treeWF_childFor {node : IntentTreeNode} (hn : treeWF node = true)
    (intent : Label) :
    treeWF (childFor node intent) = true ∧
      (childFor node intent).intent = intent := by
  unfold childFor
  cases hl : node.lookupChild intent with
  | some c =>
    obtain ⟨hc, hk⟩ := treeWF_lookupChild hn hl
    exact ⟨hc, hk.symm⟩
  | none => exact ⟨treeWF_leaf intent, rfl⟩

/-! ### Cache consistency and phrase resolution -/

theorem cacheOk_nil (f : String → Except ClassifyErr Label) : CacheOk f [] := by
  intro t r h
  simp [dictLookup] at h

theorem cacheOk_set {f : String → Except ClassifyErr Label} {cache : Cache}
    (h : CacheOk f cache) {t : String} {r : Label} (hf : f t = .ok r) :
    CacheOk f (dictSet t r cache) := by
  intro t' r' hl
  by_cases ht : t' = t
  · subst ht
    rw [dictLookup_set_self t' r cache] at hl
    cases hl
    exact hf
  · rw [dictLookup_set_ne r ht cache] at hl
    exact h t' r' hl

theorem resolvePhrase_ok {f : String → Except ClassifyErr Label}
    {st : BuildState} {ph : DialogPhrase} {lab : Label} {st' : BuildState}
    (h : resolvePhrase f st ph = .ok (lab, st'))
    (hok : CacheOk f st.cache) :
    CacheOk f st'.cache ∧ lab = labelOfPhrase f ph ∧
      (ph.is_bot = false → f ph.text = .ok lab) := by
  by_cases hb : ph.is_bot
  · simp only [resolvePhrase, hb, if_true, Except.ok.injEq, Prod.mk.injEq] at h
    obtain ⟨hlab, hst⟩ := h
    subst hlab
    subst hst
    refine ⟨hok, ?_, ?_⟩
    · simp [labelOfPhrase, hb]
    · intro hfalse
      rw [hb] at hfalse
      cases hfalse
  · simp only [resolvePhrase, hb, if_false, Bool.false_eq_true] at h
    cases hc : dictLookup ph.text st.cache with
    | some r =>
      rw [requestIntentCached, hc] at h
      simp only [Except.ok.injEq, Prod.mk.injEq] at h
      obtain ⟨hlab, hst⟩ := h
      subst hlab
      subst hst
      have hf : f ph.text = .ok r := hok ph.text r hc
      refine ⟨hok, ?_, fun _ => hf⟩
      simp [labelOfPhrase, hb, hf]
    | none =>
      rw [requestIntentCached, hc] at h
      cases hf : f ph.text with
      | ok r =>
        rw [hf] at h
        simp only [Except.ok.injEq, Prod.mk.injEq] at h
        obtain ⟨hlab, hst⟩ := h
        subst hlab
        subst hst
        refine ⟨cacheOk_set hok hf, ?_, fun _ => rfl⟩
        simp [labelOfPhrase, hb, hf]
      | error e =>
        rw [hf] at h
        cases h

/-! ### Structure of a successful `addDialogFrom` -/

theorem addDialogFrom_nil {f : String → Except ClassifyErr Label}
    {node : IntentTreeNode} {st : BuildState} :
    addDialogFrom f node [] st = .ok (node, st) := rfl

theorem addDialogFrom_cons {f : String → Except ClassifyErr Label}
    {node : IntentTreeNode} {ph : DialogPhrase} {rest : List DialogPhrase}
    {st : BuildState} {node' : IntentTreeNode} {st' : BuildState}
    (h : addDialogFrom f node (ph :: rest) st = .ok (node', st')) :
    ∃ intent st1 child' ,
      resolvePhrase f st ph = .ok (intent, st1) ∧
      addDialogFrom f ((childFor node intent).registerPhrase ph.text) rest st1
        = .ok (child', st') ∧
      node' = node.addChild child' := by
  rw [addDialogFrom] at h
  cases hr : resolvePhrase f st ph with
  | error e =>
    rw [hr] at h
    cases h
  | ok pr =>
    obtain ⟨intent, st1⟩ := pr
    rw [hr] at h
    simp only at h
    cases ha : addDialogFrom f ((childFor node intent).registerPhrase ph.text)
        rest st1 with
    | error e =>
      rw [ha] at h
      cases h
    | ok pr2 =>
      obtain ⟨child', st2⟩ := pr2
      rw [ha] at h
      simp only at h
      cases h
      exact ⟨intent, st1, child', rfl, ha, rfl⟩

theorem addDialogFrom_node_id {f : String → Except ClassifyErr Label}
    {node : IntentTreeNode} {d : List DialogPhrase} {st : BuildState}
    {node' : IntentTreeNode} {st' : BuildState}
    (h : addDialogFrom f node d st = .ok (node', st')) :
    node'.intent = node.intent ∧ node'.phrases = node.phrases := by
  cases d with
  | nil =>
    rw [addDialogFrom_nil] at h
    cases h
    exact ⟨rfl, rfl⟩
  | cons ph rest =>
    obtain ⟨intent, st1, child', _, _, hnode⟩ := addDialogFrom_cons h
    subst hnode
    exact ⟨addChild_intent node child', addChild_phrases node child'⟩

theorem addDialogFrom_wf {f : String → Except ClassifyErr Label} :
    ∀ {d : List DialogPhrase} {node : IntentTreeNode} {st : BuildState}
      {node' : IntentTreeNode} {st' : BuildState},
      treeWF node = true → addDialogFrom f node d st = .ok (node', st') →
      treeWF node' = true := by
  intro d
  induction d with
  | nil =>
    intro node st node' st' hwf h
    rw [addDialogFrom_nil] at h
    cases h
    exact hwf
  | cons ph rest ih =>
    intro node st node' st' hwf h
    obtain ⟨intent, st1, child', hr, ha, hnode⟩ := addDialogFrom_cons h
    subst hnode
    obtain ⟨hcwf, _⟩ := treeWF_childFor hwf intent
    exact treeWF_addChild hwf (ih (treeWF_registerPhrase ph.text hcwf) ha)

theorem addDialogFrom_cacheOk {f : String → Except ClassifyErr Label} :
    ∀ {d : List DialogPhrase} {node : IntentTreeNode} {st : BuildState}
      {node' : IntentTreeNode} {st' : BuildState},
      CacheOk f st.cache → addDialogFrom f node d st = .ok (node', st') →
      CacheOk f st'.cache := by
  intro d
  induction d with
  | nil =>
    intro node st node' st' hok h
    rw [addDialogFrom_nil] at h
    cases h
    exact hok
  | cons ph rest ih =>
    intro node st node' st' hok h
    obtain ⟨intent, st1, child', hr, ha, _⟩ := addDialogFrom_cons h
    exact ih (resolvePhrase_ok hr hok).1 ha

theorem addDialogFrom_classified {f : String → Except ClassifyErr Label} :
    ∀ {d : List DialogPhrase} {node : IntentTreeNode} {st : BuildState}
      {node' : IntentTreeNode} {st' : BuildState},
      CacheOk f st.cache → addDialogFrom f node d st = .ok (node', st') →
      ∀ ph ∈ d, ph.is_bot = false → ∃ r, f ph.text = .ok r := by
  intro d
  induction d with
  | nil =>
    intro node st node' st' _ _ ph hmem
    simp at hmem
  | cons ph0 rest ih =>
    intro node st node' st' hok h ph hmem hbot
    obtain ⟨intent, st1, child', hr, ha, _⟩ := addDialogFrom_cons h
    obtain ⟨hok1, _, huser⟩ := resolvePhrase_ok hr hok
    rcases List.mem_cons.mp hmem with he | hm
    · subst he
      exact ⟨intent, huser hbot⟩
    · exact ih hok1 ha ph hm hbot

/-! ### The same facts folded over all dialogs -/

theorem addDialogs_nil {f : String → Except ClassifyErr Label}
    {node : IntentTreeNode} {st : BuildState} :
    addDialogs f node [] st = .ok (node, st) := rfl

theorem addDialogs_cons {f : String → Except ClassifyErr Label}
    {node : IntentTreeNode} {d : Dialog} {ds : List Dialog} {st : BuildState}
    {node' : IntentTreeNode} {st' : BuildState}
    (h : addDialogs f node (d :: ds) st = .ok (node', st')) :
    ∃ node1 st1, addDialogFrom f node d st = .ok (node1, st1) ∧
      addDialogs f node1 ds st1 = .ok (node', st') := by
  rw [addDialogs] at h
  cases ha : addDialogFrom f node d st with
  | error e =>
    rw [ha] at h
    cases h
  | ok pr =>
    obtain ⟨node1, st1⟩ := pr
    rw [ha] at h
    exact ⟨node1, st1, rfl, h⟩

theorem addDialogs_node_id {f : String → Except ClassifyErr Label} :
    ∀ {ds : List Dialog} {node : IntentTreeNode} {st : BuildState}
      {node' : IntentTreeNode} {st' : BuildState},
      addDialogs f node ds st = .ok (node', st') →
      node'.intent = node.intent ∧ node'.phrases = node.phrases := by
  intro ds
  induction ds with
  | nil =>
    intro node st node' st' h
    rw [addDialogs_nil] at h
    cases h
    exact ⟨rfl, rfl⟩
  | cons d rest ih =>
    intro node st node' st' h
    obtain ⟨node1, st1, ha, hrest⟩ := addDialogs_cons h
    obtain ⟨hi1, hp1⟩ := addDialogFrom_node_id ha
    obtain ⟨hi2, hp2⟩ := ih hrest
    exact ⟨hi2.trans hi1, hp2.trans hp1⟩

theorem addDialogs_wf {f : String → Except ClassifyErr Label} :
    ∀ {ds : List Dialog} {node : IntentTreeNode} {st : BuildState}
      {node' : IntentTreeNode} {st' : BuildState},
      treeWF node = true → addDialogs f node ds st = .ok (node', st') →
      treeWF node' = true := by
  intro ds
  induction ds with
  | nil =>
    intro node st node' st' hwf h
    rw [addDialogs_nil] at h
    cases h
    exact hwf
  | cons d rest ih =>
    intro node st node' st' hwf h
    obtain ⟨node1, st1, ha, hrest⟩ := addDialogs_cons h
    exact ih (addDialogFrom_wf hwf ha) hrest

theorem addDialogs_cacheOk {f : String → Except ClassifyErr Label} :
    ∀ {ds : List Dialog} {node : IntentTreeNode} {st : BuildState}
      {node' : IntentTreeNode} {st' : BuildState},
      CacheOk f st.cache → addDialogs f node ds st = .ok (node', st') →
      CacheOk f st'.cache := by
  intro ds
  induction ds with
  | nil =>
    intro node st node' st' hok h
    rw [addDialogs_nil] at h
    cases h
    exact hok
  | cons d rest ih =>
    intro node st node' st' hok h
    obtain ⟨node1, st1, ha, hrest⟩ := addDialogs_cons h
    exact ih (addDialogFrom_cacheOk hok ha) hrest

theorem addDialogs_classified {f : String → Except ClassifyErr Label} :
    ∀ {ds : List Dialog} {node : IntentTreeNode} {st : BuildState}
      {node' : IntentTreeNode} {st' : BuildState},
      CacheOk f st.cache → addDialogs f node ds st = .ok (node', st') →
      ∀ d ∈ ds, ∀ ph ∈ d, ph.is_bot = false → ∃ r, f ph.text = .ok r := by
  intro ds
  induction ds with
  | nil =>
    intro node st node' st' _ _ d hmem
    simp at hmem
  | cons d0 rest ih =>
    intro node st node' st' hok h d hmem ph hph hbot
    obtain ⟨node1, st1, ha, hrest⟩ := addDialogs_cons h
    rcases List.mem_cons.mp hmem with he | hm
    · subst he
      exact addDialogFrom_classified hok ha ph hph hbot
    · exact ih (addDialogFrom_cacheOk hok ha) hrest d hm ph hph hbot

theorem buildRun_wf {f : String → Except ClassifyErr Label}
    {dialogs : List Dialog} {root : IntentTreeNode} {st : BuildState}
    (h : buildRun f dialogs = .ok (root, st)) : treeWF root = true :=
  addDialogs_wf treeWF_rootNode h

theorem buildRun_classified {f : String → Except ClassifyErr Label}
    {dialogs : List Dialog} {root : IntentTreeNode} {st : BuildState}
    (h : buildRun f dialogs = .ok (root, st)) :
    ∀ d ∈ dialogs, ∀ ph ∈ d, ph.is_bot = false → ∃ r, f ph.text = .ok r :=
  addDialogs_classified (cacheOk_nil f) h

/-! ### Paths through the tree: established by a dialog, kept by the rest -/

theorem followPath_cons_some {n : IntentTreeNode} {k : Label} {ks : List Label}
    {m : IntentTreeNode} :
    followPath n (k :: ks) = some m ↔
      ∃ c, n.lookupChild k = some c ∧ followPath c ks = some m := by
  cases hl : n.lookupChild k with
  | some c =>
    simp only [followPath, hl]
    constructor
    · intro h
      exact ⟨c, rfl, h⟩
    · rintro ⟨c', hc', h⟩
      cases hc'
      exact h
  | none =>
    simp only [followPath, hl]
    constructor
    · intro h
      cases h
    · rintro ⟨c', hc', h⟩
      cases hc'

theorem lookupChild_registerPhrase (n : IntentTreeNode) (t : String)
    (k : Label) : (n.registerPhrase t).lookupChild k = n.lookupChild k := by
  simp [IntentTreeNode.lookupChild, registerPhrase_childrenMap]

theorem followPath_registerPhrase (n : IntentTreeNode) (t : String) (k : Label)
    (ks : List Label) :
    followPath (n.registerPhrase t) (k :: ks) = followPath n (k :: ks) := by
  simp only [followPath, lookupChild_registerPhrase]

theorem followPath_registerPhrase_mono {c : IntentTreeNode} {p : List Label}
    {n : IntentTreeNode} {t : String} (s : String)
    (h : followPath c p = some n) (hm : t ∈ n.phrases) :
    ∃ m, followPath (c.registerPhrase s) p = some m ∧ t ∈ m.phrases := by
  cases p with
  | nil =>
    cases h
    exact ⟨c.registerPhrase s, rfl, registerPhrase_mem_mono s hm⟩
  | cons k ks =>
    rw [followPath_registerPhrase]
    exact ⟨n, h, hm⟩

theorem addDialogFrom_path_mono {f : String → Except ClassifyErr Label} :
    ∀ {d : List DialogPhrase} {node : IntentTreeNode} {st : BuildState}
      {node' : IntentTreeNode} {st' : BuildState},
      treeWF node = true →
      addDialogFrom f node d st = .ok (node', st') →
      ∀ {p : List Label} {n : IntentTreeNode} {t : String},
        followPath node p = some n → t ∈ n.phrases →
        ∃ n', followPath node' p = some n' ∧ t ∈ n'.phrases := by
  intro d
  induction d with
  | nil =>
    intro node st node' st' _ h p n t hp hm
    rw [addDialogFrom_nil] at h
    cases h
    exact ⟨n, hp, hm⟩
  | cons ph rest ih =>
    intro node st node' st' hwf h p n t hp hm
    obtain ⟨intent, st1, child', hr, ha, hnode⟩ := addDialogFrom_cons h
    subst hnode
    obtain ⟨hcwf, hcint⟩ := treeWF_childFor hwf intent
    have hchild'int : child'.intent = intent := by
      rw [(addDialogFrom_node_id ha).1, registerPhrase_intent, hcint]
    cases p with
    | nil =>
      cases hp
      refine ⟨node.addChild child', rfl, ?_⟩
      rw [addChild_phrases]
      exact hm
    | cons k ks =>
      obtain ⟨c, hl, hrest⟩ := followPath_cons_some.mp hp
      by_cases hk : k = intent
      · subst hk
        have hcf : childFor node k = c := by
          unfold childFor
          rw [hl]
        obtain ⟨m, hm1, hm2⟩ := followPath_registerPhrase_mono ph.text hrest hm
        rw [← hcf] at hm1
        obtain ⟨n', hn1, hn2⟩ :=
          ih (treeWF_registerPhrase ph.text hcwf) ha hm1 hm2
        refine ⟨n', followPath_cons_some.mpr ⟨child', ?_, hn1⟩, hn2⟩
        rw [show k = child'.intent from hchild'int.symm]
        exact lookupChild_addChild_self node child'
      · have hne : k ≠ child'.intent := by
          rw [hchild'int]
          exact hk
        refine ⟨n, followPath_cons_some.mpr ⟨c, ?_, hrest⟩, hm⟩
        rw [lookupChild_addChild_ne node child' hne]
        exact hl

theorem addDialogFrom_path {f : String → Except ClassifyErr Label} :
    ∀ {d : List DialogPhrase} {node : IntentTreeNode} {st : BuildState}
      {node' : IntentTreeNode} {st' : BuildState},
      treeWF node = true → CacheOk f st.cache →
      addDialogFrom f node d st = .ok (node', st') →
      ∀ (i : Nat) (hi : i < d.length),
        ∃ n, followPath node' ((dialogLabels f d).take (i + 1)) = some n ∧
          (d.get ⟨i, hi⟩).text ∈ n.phrases := by
  intro d
  induction d with
  | nil =>
    intro node st node' st' _ _ _ i hi
    simp at hi
  | cons ph rest ih =>
    intro node st node' st' hwf hok h i hi
    obtain ⟨intent, st1, child', hr, ha, hnode⟩ := addDialogFrom_cons h
    subst hnode
    obtain ⟨hok1, hlab, _⟩ := resolvePhrase_ok hr hok
    obtain ⟨hcwf, hcint⟩ := treeWF_childFor hwf intent
    have hchild'int : child'.intent = intent := by
      rw [(addDialogFrom_node_id ha).1, registerPhrase_intent, hcint]
    have hlabels : dialogLabels f (ph :: rest) =
        intent :: dialogLabels f rest := by
      simp only [dialogLabels, List.map]
      rw [← hlab]
    have hstep : (node.addChild child').lookupChild intent = some child' := by
      rw [show intent = child'.intent from hchild'int.symm]
      exact lookupChild_addChild_self node child'
    cases i with
    | zero =>
      rw [hlabels]
      refine ⟨child', ?_, ?_⟩
      · simp only [List.take]
        exact followPath_cons_some.mpr ⟨child', hstep, rfl⟩
      · rw [(addDialogFrom_node_id ha).2]
        exact registerPhrase_mem _ ph.text
    | succ j =>
      have hj : j < rest.length := by
        simpa using hi
      obtain ⟨n, hn1, hn2⟩ :=
        ih (treeWF_registerPhrase ph.text hcwf) hok1 ha j hj
      rw [hlabels]
      refine ⟨n, ?_, ?_⟩
      · simp only [List.take]
        exact followPath_cons_some.mpr ⟨child', hstep, hn1⟩
      · simpa using hn2

theorem addDialogs_path_mono {f : String → Except ClassifyErr Label} :
    ∀ {ds : List Dialog} {node : IntentTreeNode} {st : BuildState}
      {node' : IntentTreeNode} {st' : BuildState},
      treeWF node = true →
      addDialogs f node ds st = .ok (node', st') →
      ∀ {p : List Label} {n : IntentTreeNode} {t : String},
        followPath node p = some n → t ∈ n.phrases →
        ∃ n', followPath node' p = some n' ∧ t ∈ n'.phrases := by
  intro ds
  induction ds with
  | nil =>
    intro node st node' st' _ h p n t hp hm
    rw [addDialogs_nil] at h
    cases h
    exact ⟨n, hp, hm⟩
  | cons d rest ih =>
    intro node st node' st' hwf h p n t hp hm
    obtain ⟨node1, st1, ha, hrest⟩ := addDialogs_cons h
    obtain ⟨n1, hn1, hm1⟩ := addDialogFrom_path_mono hwf ha hp hm
    exact ih (addDialogFrom_wf hwf ha) hrest hn1 hm1

theorem addDialogs_path {f : String → Except ClassifyErr Label} :
    ∀ {ds : List Dialog} {node : IntentTreeNode} {st : BuildState}
      {node' : IntentTreeNode} {st' : BuildState},
      treeWF node = true → CacheOk f st.cache →
      addDialogs f node ds st = .ok (node', st') →
      ∀ d ∈ ds, ∀ (i : Nat) (hi : i < d.length),
        ∃ n, followPath node' ((dialogLabels f d).take (i + 1)) = some n ∧
          (d.get ⟨i, hi⟩).text ∈ n.phrases := by
  intro ds
  induction ds with
  | nil =>
    intro node st node' st' _ _ _ d hmem
    simp at hmem
  | cons d0 rest ih =>
    intro node st node' st' hwf hok h d hmem i hi
    obtain ⟨node1, st1, ha, hrest⟩ := addDialogs_cons h
    rcases List.mem_cons.mp hmem with he | hm
    · subst he
      obtain ⟨n, hn1, hn2⟩ := addDialogFrom_path hwf hok ha i hi
      exact addDialogs_path_mono (addDialogFrom_wf hwf ha) hrest hn1 hn2
    · exact ih (addDialogFrom_wf hwf ha) (addDialogFrom_cacheOk hok ha)
        hrest d hm i hi

theorem buildRun_path {f : String → Except ClassifyErr Label}
    {dialogs : List Dialog} {root : IntentTreeNode} {st : BuildState}
    (h : buildRun f dialogs = .ok (root, st)) :
    ∀ d ∈ dialogs, ∀ (i : Nat) (hi : i < d.length),
      ∃ n, followPath root ((dialogLabels f d).take (i + 1)) = some n ∧
        (d.get ⟨i, hi⟩).text ∈ n.phrases :=
  addDialogs_path treeWF_rootNode (cacheOk_nil f) h

/-! ### What the exporter guarantees on well-formed trees -/

theorem exportChildren_eq_map :
    ∀ l : List (Label × IntentTreeNode),
      exportChildren l = l.map (fun p => exportNodeData p.2)
  | [] => rfl
  | (k, c) :: rest => by
    simp only [exportChildren, List.map]
    rw [exportChildren_eq_map rest]

theorem intentSubtree_eq_map (n : IntentTreeNode) :
    intentSubtree n = n.childrenMap.map (fun p => exportNodeData p.2) := by
  cases n with
  | mk i p ch =>
    rw [show intentSubtree (.mk i p ch) = exportChildren ch from rfl]
    exact exportChildren_eq_map ch

mutual

theorem exportNodeData_phrasesSorted :
    ∀ n : IntentTreeNode, treeWF n = true →
      recordPhrasesSorted (exportNodeData n) = true
  | .mk i p ch, h => by
    obtain ⟨hp, _, hch⟩ := treeWF_parts h
    simp only [exportNodeData, recordPhrasesSorted, Bool.and_eq_true]
    exact ⟨strictlySorted_sortedStrings hp,
      exportChildren_phrasesSorted ch hch⟩

theorem exportChildren_phrasesSorted :
    ∀ l : List (Label × IntentTreeNode), childrenWF l = true →
      exportPhrasesSorted (exportChildren l) = true
  | [], _ => rfl
  | (k, c) :: rest, h => by
    simp only [childrenWF, Bool.and_eq_true, decide_eq_true_eq] at h
    obtain ⟨⟨_, hc⟩, hrest⟩ := h
    simp only [exportChildren, exportPhrasesSorted, Bool.and_eq_true]
    exact ⟨exportNodeData_phrasesSorted c hc,
      exportChildren_phrasesSorted rest hrest⟩

end

theorem intentSubtree_phrasesSorted {n : IntentTreeNode}
    (h : treeWF n = true) : exportPhrasesSorted (intentSubtree n) = true := by
  cases n with
  | mk i p ch =>
    obtain ⟨_, _, hch⟩ := treeWF_parts h
    rw [show intentSubtree (.mk i p ch) = exportChildren ch from rfl]
    exact exportChildren_phrasesSorted ch hch

mutual

theorem distinctChildLabels_of_treeWF :
    ∀ n : IntentTreeNode, treeWF n = true → distinctChildLabels n = true
  | .mk i p ch, h => by
    obtain ⟨_, hk, hch⟩ := treeWF_parts h
    simp only [distinctChildLabels, Bool.and_eq_true, decide_eq_true_eq]
    exact ⟨hk, distinctChildLabelsAll_of_childrenWF ch hch⟩

theorem distinctChildLabelsAll_of_childrenWF :
    ∀ l : List (Label × IntentTreeNode), childrenWF l = true →
      distinctChildLabelsAll l = true
  | [], _ => rfl
  | (k, c) :: rest, h => by
    simp only [childrenWF, Bool.and_eq_true, decide_eq_true_eq] at h
    obtain ⟨⟨_, hc⟩, hrest⟩ := h
    simp only [distinctChildLabelsAll, Bool.and_eq_true]
    exact ⟨distinctChildLabels_of_treeWF c hc,
      distinctChildLabelsAll_of_childrenWF rest hrest⟩

end

/-! ### One atomic step of a concurrent resolution on a cache hit -/

theorem Conc.step_cache_hit {f : String → Except ClassifyErr Label}
    {s : Conc.ConcState} {i : Nat} {t : String} {r : Label}
    (ht : s.tasks.get? i = some ⟨t, .start⟩)
    (hc : dictLookup t s.cache = some r) :
    Conc.step f s i =
      { s with tasks := s.tasks.set i ⟨t, .done (.ok r)⟩ } := by
  unfold Conc.step
  rw [ht]
  simp only [hc]

/-! ### The claims -/

/-- Claim C1, counterexample.  The claim says export emits each node's
children in ascending label-sorted order.  It does not: `_intentSubtree`
iterates the children dict in insertion order (lines 115, 81-83).  Building
from two dialogs whose single user turns classify as `"Z"` and `"A"` (in
that order) exports the `"Z"` record before the `"A"` record, although
`"A" < "Z"`. -/
theorem C1_counterexample :
    buildIntentTree (fun t => if t = "zz" then .ok (some "Z") else .ok (some "A"))
        [[⟨"zz", false⟩], [⟨"aa", false⟩]]
      = .ok [.mk false ["zz"] [] (some (some "Z")),
             .mk false ["aa"] [] (some (some "A"))] ∧
    ("A" : String) < "Z" := by
  constructor
  · rfl
  · exact (strLtb_iff "A" "Z").mp rfl

/-- Claim C1 as amended: export emits each node's children in the children
dict's insertion order (one record per entry, in order), and each node's
phrase list in ascending lexicographic order without duplicates
(`exportPhrasesSorted` checks strict ascent of every phrase list,
recursively); export is a pure function of the tree, so exporting the same
tree twice yields identical output. -/
theorem C1_amended_export :
    (∀ n : IntentTreeNode,
        intentSubtree n = n.childrenMap.map (fun p => exportNodeData p.2)) ∧
    (∀ (f : String → Except ClassifyErr Label) (dialogs : List Dialog)
        (root : IntentTreeNode) (st : BuildState),
        buildRun f dialogs = .ok (root, st) →
        exportPhrasesSorted (intentTree root) = true) := by
  constructor
  · exact intentSubtree_eq_map
  · intro f dialogs root st h
    exact intentSubtree_phrasesSorted (buildRun_wf h)

/-- Witness for C1 as amended, at the spec's concrete two-dialog scenario. -/
theorem C1_amended_export_witness :
    exportPhrasesSorted (intentTree (.mk (some ROOT_INTENT) []
      [(some "GREETING", .mk (some "GREETING") ["hi"]
        [(some "DETERMINISTIC_BOT_INTENT",
          .mk (some "DETERMINISTIC_BOT_INTENT")
            ["hello back", "different bot line"] [])])])) = true :=
  C1_amended_export.2
    (fun t => if t = "hi" then .ok (some "GREETING") else .ok none)
    [[⟨"hi", false⟩, ⟨"hello back", true⟩],
     [⟨"hi", false⟩, ⟨"different bot line", true⟩]]
    _ ⟨[("hi", some "GREETING")], 1⟩ rfl

/-- Claim C2, counterexample.  The claim says at most one remote call is
issued when concurrent callers resolve the same uncached text.  `asyncCached`
checks the cache and only then awaits the wrapped call (lines 18-22), so two
tasks that both miss before either result is stored each issue a call: with
two resolutions of `"hi"` interleaved check-check-call-call, two calls are
issued. -/
theorem C2_counterexample :
    (Conc.run (fun _ => .ok (some "GREETING"))
        (Conc.init ["hi", "hi"]) [0, 1, 0, 1]).calls = 2 ∧
    ¬(Conc.run (fun _ => .ok (some "GREETING"))
        (Conc.init ["hi", "hi"]) [0, 1, 0, 1]).calls ≤ 1 := by
  have h2 : (Conc.run (fun _ => .ok (some "GREETING"))
      (Conc.init ["hi", "hi"]) [0, 1, 0, 1]).calls = 2 := rfl
  refine ⟨h2, ?_⟩
  rw [h2]
  decide

/-- Claim C2 as amended: a caller that checks the cache after a successful
resolution of its text has been stored completes immediately with the stored
result and issues no remote call; but two callers that both check before
either result is stored each issue their own call — the code has no in-flight
deduplication, only completed-result memoization. -/
theorem C2_amended_cache_hit :
    ∀ (f : String → Except ClassifyErr Label) (s : Conc.ConcState) (i : Nat)
      (t : String) (r : Label),
      s.tasks.get? i = some ⟨t, .start⟩ →
      dictLookup t s.cache = some r →
      (Conc.step f s i).calls = s.calls ∧
      (Conc.step f s i).cache = s.cache ∧
      (Conc.step f s i).tasks = s.tasks.set i ⟨t, .done (.ok r)⟩ := by
  intro f s i t r ht hc
  rw [Conc.step_cache_hit ht hc]
  exact ⟨rfl, rfl, rfl⟩

/-- Witness for C2 as amended: one task about to resolve `"hi"`, which is
already cached; its step issues no call and serves the cached label. -/
theorem C2_amended_cache_hit_witness :
    (Conc.step (fun _ => .ok (some "GREETING"))
        ⟨[("hi", some "GREETING")], [⟨"hi", .start⟩], 1⟩ 0).calls = 1 ∧
    (Conc.step (fun _ => .ok (some "GREETING"))
        ⟨[("hi", some "GREETING")], [⟨"hi", .start⟩], 1⟩ 0).cache
      = [("hi", some "GREETING")] ∧
    (Conc.step (fun _ => .ok (some "GREETING"))
        ⟨[("hi", some "GREETING")], [⟨"hi", .start⟩], 1⟩ 0).tasks
      = [⟨"hi", .done (.ok (some "GREETING"))⟩] :=
  C2_amended_cache_hit (fun _ => .ok (some "GREETING"))
    ⟨[("hi", some "GREETING")], [⟨"hi", .start⟩], 1⟩ 0 "hi"
    (some "GREETING") rfl rfl

/-- Claim C3, counterexample.  The claim says `addChild` for an existing
label fails or is a no-op keeping the existing child.  It is neither:
`addChild` assigns `self.childrenMap[node.intent] = node` (line 76), so a
second child with the label `"A"` replaces the first (which had phrase
`"x"`). -/
theorem C3_counterexample :
    ((IntentTreeNode.mk (some ROOT_INTENT) []
        [(some "A", .mk (some "A") ["x"] [])]).addChild
          (.mk (some "A") [] [])).lookupChild (some "A")
      = some (.mk (some "A") [] []) ∧
    IntentTreeNode.mk (some "A") [] [] ≠ .mk (some "A") ["x"] [] := by
  constructor
  · rfl
  · intro h
    injection h with h1 h2 h3
    cases h2

/-- Claim C3 as amended: `addChild` unconditionally stores the child under
the child's own label, replacing in place any existing child with that label
(entries under other labels are untouched); the builder avoids overwriting
by checking `lookupChild` first (lines 101-104). -/
theorem C3_amended_addChild :
    ∀ self node : IntentTreeNode,
      (self.addChild node).lookupChild node.intent = some node ∧
      ∀ k : Label, k ≠ node.intent →
        (self.addChild node).lookupChild k = self.lookupChild k := by
  intro self node
  exact ⟨lookupChild_addChild_self self node,
    fun k hk => lookupChild_addChild_ne self node hk⟩

/-- Witness for C3 as amended, at the counterexample's input. -/
theorem C3_amended_addChild_witness :
    ((IntentTreeNode.mk (some ROOT_INTENT) []
        [(some "A", .mk (some "A") ["x"] [])]).addChild
          (.mk (some "A") [] [])).lookupChild (some "A")
      = some (.mk (some "A") [] []) ∧
    ((IntentTreeNode.mk (some ROOT_INTENT) []
        [(some "A", .mk (some "A") ["x"] [])]).addChild
          (.mk (some "A") [] [])).lookupChild (some "B")
      = (IntentTreeNode.mk (some ROOT_INTENT) []
        [(some "A", .mk (some "A") ["x"] [])]).lookupChild (some "B") := by
  have h := C3_amended_addChild
    (.mk (some ROOT_INTENT) [] [(some "A", .mk (some "A") ["x"] [])])
    (.mk (some "A") [] [])
  exact ⟨h.1, h.2 (some "B") (by decide)⟩

/-- Claim C4: two dialogs of one build whose label sequences share a common
prefix share the corresponding tree path — the path is followed through keyed
children dicts, so there is a single node at that prefix, and it carries both
dialogs' phrases at that depth; and the spec's concrete two-dialog scenario
exports exactly one `GREETING` record with phrases `["hi"]` and one nested
bot record with phrases `["different bot line", "hello back"]`. -/
theorem C4_shared_prefix_merge :
    (∀ (f : String → Except ClassifyErr Label) (dialogs : List Dialog)
        (root : IntentTreeNode) (st : BuildState) (d1 d2 : Dialog) (k : Nat),
        buildRun f dialogs = .ok (root, st) →
        d1 ∈ dialogs → d2 ∈ dialogs →
        ∀ (hk1 : k < d1.length) (hk2 : k < d2.length),
        (dialogLabels f d1).take (k + 1) = (dialogLabels f d2).take (k + 1) →
        ∃ n, followPath root ((dialogLabels f d1).take (k + 1)) = some n ∧
          (d1.get ⟨k, hk1⟩).text ∈ n.phrases ∧
          (d2.get ⟨k, hk2⟩).text ∈ n.phrases) ∧
    buildIntentTree
        (fun t => if t = "hi" then .ok (some "GREETING") else .ok none)
        [[⟨"hi", false⟩, ⟨"hello back", true⟩],
         [⟨"hi", false⟩, ⟨"different bot line", true⟩]]
      = .ok [.mk false ["hi"]
          [.mk true ["different bot line", "hello back"] [] none]
          (some (some "GREETING"))] := by
  constructor
  · intro f dialogs root st d1 d2 k h h1 h2 hk1 hk2 hpre
    obtain ⟨n, hn1, hm1⟩ := buildRun_path h d1 h1 k hk1
    obtain ⟨n2, hn2, hm2⟩ := buildRun_path h d2 h2 k hk2
    rw [← hpre, hn1] at hn2
    injection hn2 with he
    subst he
    exact ⟨n, hn1, hm1, hm2⟩
  · rfl

/-- Witness for C4: in the concrete scenario both dialogs' first turns land
on the single `GREETING` node. -/
theorem C4_shared_prefix_merge_witness :
    ∃ n, followPath (.mk (some ROOT_INTENT) []
        [(some "GREETING", .mk (some "GREETING") ["hi"]
          [(some "DETERMINISTIC_BOT_INTENT",
            .mk (some "DETERMINISTIC_BOT_INTENT")
              ["hello back", "different bot line"] [])])])
        [some "GREETING"] = some n ∧
      "hi" ∈ n.phrases ∧ "hi" ∈ n.phrases :=
  C4_shared_prefix_merge.1
    (fun t => if t = "hi" then .ok (some "GREETING") else .ok none)
    [[⟨"hi", false⟩, ⟨"hello back", true⟩],
     [⟨"hi", false⟩, ⟨"different bot line", true⟩]]
    _ ⟨[("hi", some "GREETING")], 1⟩
    [⟨"hi", false⟩, ⟨"hello back", true⟩]
    [⟨"hi", false⟩, ⟨"different bot line", true⟩] 0
    rfl (by simp) (by simp) (by decide) (by decide) rfl

/-- Claim C5: after any successful build, every node of the tree has
pairwise-distinct child labels — the children dict never holds two entries
with the same key, because `addDialog` only creates a child after
`lookupChild` misses, and dict assignment replaces rather than duplicates. -/
theorem C5_distinct_child_labels :
    ∀ (f : String → Except ClassifyErr Label) (dialogs : List Dialog)
      (root : IntentTreeNode) (st : BuildState),
      buildRun f dialogs = .ok (root, st) →
      distinctChildLabels root = true := by
  intro f dialogs root st h
  exact distinctChildLabels_of_treeWF root (buildRun_wf h)

/-- Witness for C5, on the concrete two-dialog build. -/
theorem C5_distinct_child_labels_witness :
    distinctChildLabels (.mk (some ROOT_INTENT) []
      [(some "GREETING", .mk (some "GREETING") ["hi"]
        [(some "DETERMINISTIC_BOT_INTENT",
          .mk (some "DETERMINISTIC_BOT_INTENT")
            ["hello back", "different bot line"] [])])]) = true :=
  C5_distinct_child_labels
    (fun t => if t = "hi" then .ok (some "GREETING") else .ok none)
    [[⟨"hi", false⟩, ⟨"hello back", true⟩],
     [⟨"hi", false⟩, ⟨"different bot line", true⟩]]
    _ ⟨[("hi", some "GREETING")], 1⟩ rfl

/-- Claim C6: after a successful resolution of a text, resolving the same
text again is answered from the cache: it issues zero remote calls, leaves
the cache unchanged, and returns the identical label. -/
theorem C6_cache_idempotent :
    ∀ (f : String → Except ClassifyErr Label) (cache : Cache) (text : String)
      (r : Label) (cache' : Cache) (k : Nat),
      requestIntentCached f cache text = (.ok r, cache', k) →
      requestIntentCached f cache' text = (.ok r, cache', 0) := by
  intro f cache text r cache' k h
  unfold requestIntentCached at h
  cases hc : dictLookup text cache with
  | some v =>
    rw [hc] at h
    simp only [Prod.mk.injEq, Except.ok.injEq] at h
    obtain ⟨h1, h2, h3⟩ := h
    subst h1
    subst h2
    unfold requestIntentCached
    rw [hc]
  | none =>
    rw [hc] at h
    cases hf : f text with
    | ok v =>
      rw [hf] at h
      simp only [Prod.mk.injEq, Except.ok.injEq] at h
      obtain ⟨h1, h2, h3⟩ := h
      subst h1
      subst h2
      unfold requestIntentCached
      rw [dictLookup_set_self text v cache]
    | error e =>
      rw [hf] at h
      simp only [Prod.mk.injEq] at h
      cases h.1

/-- Witness for C6: the first resolution of `"hi"` on an empty cache caches
its label; the second resolution is a hit with zero calls. -/
theorem C6_cache_idempotent_witness :
    requestIntentCached (fun _ => .ok (some "GREETING"))
        [("hi", some "GREETING")] "hi"
      = (.ok (some "GREETING"), [("hi", some "GREETING")], 0) :=
  C6_cache_idempotent (fun _ => .ok (some "GREETING")) [] "hi"
    (some "GREETING") [("hi", some "GREETING")] 1 rfl

/-- Claim C7: the run is all-or-nothing.  If any user utterance of any
dialog has a failing classification, the whole build returns an error and no
tree; if the traversals succeed, the build returns exactly the exported
tree; and an error of the traversals propagates unchanged. -/
theorem C7_all_or_nothing :
    ∀ (f : String → Except ClassifyErr Label) (dialogs : List Dialog),
      ((∃ d ∈ dialogs, ∃ ph ∈ d, ph.is_bot = false ∧
          ∀ r, f ph.text ≠ .ok r) →
        ∃ e, buildIntentTree f dialogs = .error e) ∧
      (∀ e, buildRun f dialogs = .error e →
        buildIntentTree f dialogs = .error e) ∧
      (∀ root st, buildRun f dialogs = .ok (root, st) →
        buildIntentTree f dialogs = .ok (intentTree root)) := by
  intro f dialogs
  refine ⟨?_, ?_, ?_⟩
  · rintro ⟨d, hd, ph, hph, hbot, hfail⟩
    cases hb : buildRun f dialogs with
    | error e =>
      refine ⟨e, ?_⟩
      rw [buildIntentTree, hb]
    | ok pr =>
      obtain ⟨root, st⟩ := pr
      obtain ⟨r, hr⟩ := buildRun_classified hb d hd ph hph hbot
      exact absurd hr (hfail r)
  · intro e h
    rw [buildIntentTree, h]
  · intro root st h
    rw [buildIntentTree, h]

/-- Witness for C7: a classifier that always fails makes the one-dialog
build fail. -/
theorem C7_all_or_nothing_witness :
    ∃ e, buildIntentTree (fun _ => .error (.transport "boom"))
        [[⟨"hi", false⟩]] = .error e :=
  (C7_all_or_nothing (fun _ => .error (.transport "boom"))
      [[⟨"hi", false⟩]]).1
    ⟨[⟨"hi", false⟩], by simp, ⟨"hi", false⟩, by simp, rfl,
      fun r h => Except.noConfusion h⟩

/-- Claim C8: `requestIntent` fails with the `RequestError` carrying the
status code and the phrase on any non-200 response, propagates the transport
error's cause when the exchange fails, propagates the parse error's cause
when the 200 body is malformed, and on a 200 response whose `intent.name` is
absent resolves to the absent label `none` rather than a real label. -/
theorem C8_classify_errors :
    ∀ phrase : String,
      (∀ (status : Nat) (body : Except String ParsedData), status ≠ 200 →
        requestIntentRemote phrase (.response status body)
          = .error (.requestError status phrase)) ∧
      (∀ cause : String,
        requestIntentRemote phrase (.transportError cause)
          = .error (.transport cause)) ∧
      (∀ cause : String,
        requestIntentRemote phrase (.response 200 (.error cause))
          = .error (.malformed cause)) ∧
      (∀ data : ParsedData, getIntentName data = none →
        requestIntentRemote phrase (.response 200 (.ok data)) = .ok none) := by
  intro phrase
  refine ⟨?_, ?_, ?_, ?_⟩
  · intro status body hs
    simp [requestIntentRemote, hs]
  · intro cause
    rfl
  · intro cause
    rfl
  · intro data hd
    simp [requestIntentRemote, hd]

/-- Witness for C8: a 500 response and a 200 response with no intent. -/
theorem C8_classify_errors_witness :
    requestIntentRemote "hello" (.response 500 (.ok ⟨none⟩))
      = .error (.requestError 500 "hello") ∧
    requestIntentRemote "hello" (.response 200 (.ok ⟨none⟩)) = .ok none :=
  ⟨(C8_classify_errors "hello").1 500 (.ok ⟨none⟩) (by decide),
   (C8_classify_errors "hello").2.2.2 ⟨none⟩ rfl⟩

/-- Claim C9: building from an empty batch of dialogs succeeds with the
fresh root, an empty cache and zero remote calls, and exports the empty
top-level record list. -/
theorem C9_empty_build :
    ∀ f : String → Except ClassifyErr Label,
      buildRun f [] = .ok (rootNode, ⟨[], 0⟩) ∧
      buildIntentTree f [] = .ok [] := by
  intro f
  exact ⟨rfl, rfl⟩

/-- Witness for C9 at a concrete classifier. -/
theorem C9_empty_build_witness :
    buildRun (fun _ => .ok none) [] = .ok (rootNode, ⟨[], 0⟩) ∧
    buildIntentTree (fun _ => .ok none) [] = .ok [] :=
  C9_empty_build (fun _ => .ok none)

/-- Claim C10: a traversal registers each utterance on the child it descends
to, never on the cursor node itself, so the traversed node keeps its own
phrase set unchanged and the root's phrase set stays empty through any
successful build. -/
theorem C10_rootPhrasesEmpty :
    (∀ (f : String → Except ClassifyErr Label) (node : IntentTreeNode)
        (d : List DialogPhrase) (st : BuildState) (node' : IntentTreeNode)
        (st' : BuildState),
        addDialogFrom f node d st = .ok (node', st') →
        node'.phrases = node.phrases) ∧
    (∀ (f : String → Except ClassifyErr Label) (dialogs : List Dialog)
        (root : IntentTreeNode) (st : BuildState),
        buildRun f dialogs = .ok (root, st) → root.phrases = []) := by
  constructor
  · intro f node d st node' st' h
    exact (addDialogFrom_node_id h).2
  · intro f dialogs root st h
    rw [(addDialogs_node_id h).2]
    rfl

/-- Witness for C10, on the concrete two-dialog build. -/
theorem C10_rootPhrasesEmpty_witness :
    (IntentTreeNode.mk (some ROOT_INTENT) []
      [(some "GREETING", .mk (some "GREETING") ["hi"]
        [(some "DETERMINISTIC_BOT_INTENT",
          .mk (some "DETERMINISTIC_BOT_INTENT")
            ["hello back", "different bot line"] [])])]).phrases = [] :=
  C10_rootPhrasesEmpty.2
    (fun t => if t = "hi" then .ok (some "GREETING") else .ok none)
    [[⟨"hi", false⟩, ⟨"hello back", true⟩],
     [⟨"hi", false⟩, ⟨"different bot line", true⟩]]
    _ ⟨[("hi", some "GREETING")], 1⟩ rfl

end IntentTree
